import Mathlib

/-!
Shallow embedding of the ABList per-symbol detail view: the time-series
indicator pipeline (stock_detail.js: computeSMA, computeEMA, computeRSI),
and the chart state machine of detail.js (history loading, overlay
management, viewport zoom).  JavaScript numbers are modelled by ℚ; the
JavaScript values null / undefined / NaN, which the source collapses with
checks such as "v == null || isNaN(v)", are modelled by none : Option ℚ.
-/

namespace ABList

/-- Coercion used by the source wherever it computes with a possibly-null
value, e.g. "(values[i] ?? 0)" or "sum += (v == null || isNaN(v)) ? 0 : v". -/
def numOr0 (v : Option ℚ) : ℚ := v.getD 0

/-! ### computeSMA (stock_detail.js lines 39-55)

The loop carries a running sum (add the entering value, subtract the
expired one) and writes out[i] = sum / period once i ≥ period - 1.
We fold over the visited indices List.range values.length, mirroring
"for (let i = 0; i < values.length; i++)". -/

/-- One pass of the computeSMA for-loop over the remaining indices,
carrying the running sum and the output array. -/
def smaFold (values : List (Option ℚ)) (period : Nat) :
    List Nat → ℚ × List (Option ℚ) → ℚ × List (Option ℚ)
  | [], s => s
  | i :: rest, (sum, out) =>
      let sum1 := sum + numOr0 (values.getD i none)
      let sum2 := if period ≤ i then sum1 - numOr0 (values.getD (i - period) none) else sum1
      let out2 := if period - 1 ≤ i then out.set i (some (sum2 / (period : ℚ))) else out
      smaFold values period rest (sum2, out2)

/-- Embedding of computeSMA: output starts as an all-null array of the
input's length; the guard "period <= 1" returns it unchanged. -/
def computeSMA (values : List (Option ℚ)) (period : Nat) : List (Option ℚ) :=
  if period ≤ 1 then List.replicate values.length none
  else (smaFold values period (List.range values.length) (0, List.replicate values.length none)).2

/-! ### computeEMA (stock_detail.js lines 57-77)

prev is seeded with the first non-null value; a null input writes the
previous EMA through unchanged ("out[i] = prev; continue"). -/

/-- Body of the computeEMA loop: prev is the running EMA (none until the
first non-null input has been seen). -/
def emaGo (k : ℚ) : Option ℚ → List (Option ℚ) → List (Option ℚ)
  | _, [] => []
  | prev, none :: rest => prev :: emaGo k prev rest
  | prev, some x :: rest =>
      let p2 := match prev with
        | none => x
        | some pr => x * k + pr * (1 - k)
      some p2 :: emaGo k (some p2) rest

/-- Embedding of computeEMA with smoothing factor k = 2 / (period + 1). -/
def computeEMA (values : List (Option ℚ)) (period : Nat) : List (Option ℚ) :=
  if period ≤ 1 then List.replicate values.length none
  else emaGo (2 / ((period : ℚ) + 1)) none values

/-! ### computeRSI (stock_detail.js lines 79-101) -/

/-- JavaScript array element assignment "out[i] = v".  When i is beyond the
current length the array is extended and the skipped positions become holes,
which read back as undefined; holes are modelled as none. -/
def listSetExtend (xs : List (Option ℚ)) (i : Nat) (v : Option ℚ) : List (Option ℚ) :=
  if i < xs.length then xs.set i v
  else xs ++ List.replicate (i - xs.length) none ++ [v]

/-- Reading "(values[i] ?? 0)": out-of-range reads give undefined, and
"?? 0" turns undefined or null into 0. -/
def jsGet (values : List (Option ℚ)) (i : Nat) : ℚ := numOr0 (values.getD i none)

/-- The price change "(values[i] ?? 0) - (values[i-1] ?? 0)" used by
computeRSI (only evaluated at i ≥ 1). -/
def jsChange (values : List (Option ℚ)) (i : Nat) : ℚ :=
  jsGet values i - jsGet values (i - 1)

/-- The RSI value written by computeRSI for averages ag, al.  The source
computes rs = avgGain / avgLoss and then 100 - 100 / (1 + rs), short-cutting
avgLoss == 0 to 100 at index period and to rs = Infinity afterwards; in
JavaScript float arithmetic 100 - 100 / (1 + Infinity) is exactly 100, so
both paths are this conditional. -/
def rsiVal (ag al : ℚ) : ℚ :=
  if al = 0 then 100 else 100 - 100 / (1 + ag / al)

/-- Initialization loop "for (let i = 1; i <= period && i < values.length)":
positive changes accumulate into the gain sum, other changes are subtracted
from (i.e. their negation is added to) the loss sum. -/
def rsiInitFold (values : List (Option ℚ)) : List Nat → ℚ × ℚ → ℚ × ℚ
  | [], s => s
  | i :: rest, (g, l) =>
      let ch := jsChange values i
      rsiInitFold values rest (if 0 < ch then (g + ch, l) else (g, l - ch))

/-- Wilder smoothing loop of computeRSI over the remaining indices,
carrying (avgGain, avgLoss, out). -/
def rsiFold (values : List (Option ℚ)) (p : ℚ) :
    List Nat → ℚ × ℚ × List (Option ℚ) → ℚ × ℚ × List (Option ℚ)
  | [], s => s
  | i :: rest, (ag, al, out) =>
      let ch := jsChange values i
      let ag2 := (ag * (p - 1) + max 0 ch) / p
      let al2 := (al * (p - 1) + max 0 (-ch)) / p
      rsiFold values p rest (ag2, al2, listSetExtend out i (some (rsiVal ag2 al2)))

/-- Embedding of computeRSI.  The write "out[period] = ..." is unconditional
in the source, hence the listSetExtend there even when period is not below
the input length.  The smoothing loop runs for period + 1 ≤ i < length. -/
def computeRSI (values : List (Option ℚ)) (period : Nat) : List (Option ℚ) :=
  if period ≤ 1 then List.replicate values.length none
  else
    let L := values.length
    let init := rsiInitFold values (List.range' 1 (min period (L - 1))) (0, 0)
    let avgGain := init.1 / (period : ℚ)
    let avgLoss := init.2 / (period : ℚ)
    let out0 := listSetExtend (List.replicate L none) period
      (some (rsiVal avgGain avgLoss))
    (rsiFold values (period : ℚ) (List.range' (period + 1) (L - (period + 1)))
      (avgGain, avgLoss, out0)).2.2

/-! ### detail.js: data shapes

A history point as delivered by /api/.../history (fields used by the core:
date and close; a none date models a falsy/missing date, a none close a
null close). -/

/-- One element of data.points in the history payload. -/
structure HistoryItem where
  date : Option ℚ
  close : Option ℚ
deriving DecidableEq, Repr

/-- A chart point {x, y}.  For indicator points y may be null. -/
structure ChartPoint where
  x : ℚ
  y : Option ℚ
deriving DecidableEq, Repr

/-- One element of an indicator payload's values array: {date, value}. -/
structure IndPoint where
  date : Option ℚ
  value : Option ℚ
deriving DecidableEq, Repr

/-- A Chart.js dataset as assembled by updatePriceChart and
buildOverlayDataset (the styling fields the source sets are kept so that
dataset equality is equality of everything the source writes). -/
structure Dataset where
  id : String
  label : String
  data : List ChartPoint
  borderColor : String
  backgroundColor : String
  borderWidth : Option ℚ
  fill : Bool
  tension : ℚ
  spanGaps : Bool
deriving DecidableEq, Repr

/-- An overlay definition as created by the overlayForm submit handler:
{ id, type, window, color } plus the dataset attached right after. -/
structure OverlayDef where
  id : Nat
  type : String
  window : Int
  color : String
  dataset : Option Dataset
deriving DecidableEq, Repr

/-- The defaultTimeRange {min, max} in epoch milliseconds. -/
structure TimeRange where
  min : ℚ
  max : ℚ
deriving DecidableEq, Repr

/-- state.requests of detail.js: both fields are initialized to null and,
notably, never written or read anywhere else in the source. -/
structure RequestsState where
  currentHistory : Option Nat
  overlayRefresh : Option Nat
deriving DecidableEq, Repr

/-- The mutable page state of detail.js that the core operates on:
state.data, state.ui, state.requests, and the x-scale min/max options the
zoom helpers write through setScaleRange / manualResetZoom (absent options
model the deleted / never-set case). -/
structure DetailState where
  currentInterval : String
  baseHistory : List HistoryItem
  defaultTimeRange : Option TimeRange
  shouldResetZoom : Bool
  overlayCounter : Nat
  overlays : List (Nat × OverlayDef)
  requests : RequestsState
  xMin : Option ℚ
  xMax : Option ℚ
deriving DecidableEq, Repr

/-! ### detail.js: pure helpers -/

/-- Embedding of mapHistoryToPoints(history, 'close'): keep items with a
truthy date and a non-null close. -/
def mapHistoryToPoints (history : List HistoryItem) : List ChartPoint :=
  (history.filter (fun it => it.date.isSome && it.close.isSome)).map
    (fun it => { x := numOr0 it.date, y := it.close })

/-- Embedding of mapIndicatorToPoints(values): keep items with a truthy
date; a null value stays null. -/
def mapIndicatorToPoints (values : List IndPoint) : List ChartPoint :=
  (values.filter (fun it => it.date.isSome)).map
    (fun it => { x := numOr0 it.date, y := it.value })

/-- toUpperCase of the overlay type string, for the dataset label; only the
lower-case indicator names sma / ema / rsi reach it. -/
def jsUpper (s : String) : String := s.toUpper

/-- Embedding of buildOverlayDataset(def, values). -/
def buildOverlayDataset (ov : OverlayDef) (values : List IndPoint) : Dataset :=
  { id := "overlay-" ++ toString ov.id
    label := jsUpper ov.type ++ " (" ++ toString ov.window ++ ")"
    data := mapIndicatorToPoints values
    borderColor := ov.color
    backgroundColor := ov.color
    borderWidth := some 2
    fill := false
    tension := 1 / 10
    spanGaps := true }

/-- The base dataset updatePriceChart pushes first (symbol close series). -/
def baseDataset (symbol : String) (st : DetailState) : Dataset :=
  { id := "price"
    label := symbol ++ " Close"
    data := mapHistoryToPoints st.baseHistory
    borderColor := "#1f2937"
    backgroundColor := "rgba(96, 165, 250, 0.15)"
    borderWidth := none
    fill := false
    tension := 3 / 20
    spanGaps := true }

/-- The ordered dataset list updatePriceChart assigns to the chart: the
base series first, then each overlay's dataset in insertion order, skipping
overlays whose dataset is still absent. -/
def renderDatasets (symbol : String) (st : DetailState) : List Dataset :=
  baseDataset symbol st :: st.overlays.filterMap (fun p => p.2.dataset)

/-- Embedding of computeDefaultRange(points): the min-max fold over the
timestamps; null when no points or when max ≤ min (fewer than two distinct
timestamps). -/
def computeDefaultRange (points : List ChartPoint) : Option TimeRange :=
  match points.map (fun p => p.x) with
  | [] => none
  | t :: ts =>
      let mn := ts.foldl min t
      let mx := ts.foldl max t
      if mx ≤ mn then none else some { min := mn, max := mx }

/-- Embedding of manualResetZoom: write the default range into the x-scale
options, or delete them when there is no default range. -/
def manualResetZoom (st : DetailState) : DetailState :=
  match st.defaultTimeRange with
  | some d => { st with xMin := some d.min, xMax := some d.max }
  | none => { st with xMin := none, xMax := none }

/-- Embedding of updatePriceChart's state effects: the datasets it builds
are renderDatasets; when shouldResetZoom is set it recomputes
defaultTimeRange from the base price points and resets the zoom. -/
def updatePriceChart (st : DetailState) : DetailState :=
  if st.shouldResetZoom then
    let st1 := { st with defaultTimeRange := computeDefaultRange (mapHistoryToPoints st.baseHistory) }
    { manualResetZoom st1 with shouldResetZoom := false }
  else st

/-! ### detail.js: async handlers as state transformers

loadHistory awaits the fetch and then runs its success continuation (or the
catch block) on whatever the page state is at resolution time; the
continuations are pure state transformers, so the event interleavings of
the single-threaded page are exactly compositions of these functions. -/

/-- The success path of loadHistory once its response resolves: the fetched
points replace baseHistory unconditionally (no request token is consulted),
the zoom is flagged for reset and the chart is updated. -/
def applyHistoryResponse (st : DetailState) (points : List HistoryItem) : DetailState :=
  updatePriceChart { st with baseHistory := points, shouldResetZoom := true }

/-- The catch path of loadHistory (provider failure): baseHistory is set to
the empty list, the zoom reset is flagged and the chart is updated. -/
def applyHistoryFailure (st : DetailState) : DetailState :=
  updatePriceChart { st with baseHistory := [], shouldResetZoom := true }

/-- Embedding of refreshAllOverlays: each overlay's indicator fetch settles
independently (results gives each overlay id's outcome); a fulfilled fetch
rebuilds that overlay's dataset, a rejected one leaves the overlay exactly
as it was, and afterwards the chart is updated once. -/
def refreshAllOverlays (st : DetailState)
    (results : Nat → Except Unit (List IndPoint)) : DetailState :=
  updatePriceChart
    { st with overlays := st.overlays.map (fun p =>
        match results p.1 with
        | .ok vals => (p.1, { p.2 with dataset := some (buildOverlayDataset p.2 vals) })
        | .error _ => p) }

/-- Embedding of the overlayForm submit handler.  period is the parseInt
result (none models NaN).  The indicator fetch is awaited before the id is
allocated; a rejected fetch therefore reaches the catch block with no state
mutated.  On success the id is taken from the counter, the counter is
incremented, the dataset is built and attached before the overlay is
inserted, and the chart is updated. -/
def addOverlay (st : DetailState) (indicator : String) (period : Option Int)
    (color : String) (fetchResult : Except Unit (List IndPoint)) : DetailState :=
  match period with
  | none => st
  | some p =>
      if p ≤ 0 then st
      else
        match fetchResult with
        | .error _ => st
        | .ok values =>
            let id := st.overlayCounter
            let ov0 : OverlayDef :=
              { id := id, type := indicator, window := p, color := color, dataset := none }
            let ov : OverlayDef := { ov0 with dataset := some (buildOverlayDataset ov0 values) }
            updatePriceChart
              { st with overlayCounter := id + 1, overlays := st.overlays ++ [(id, ov)] }

/-! ### detail.js: manual zoom (lines 407-449) -/

/-- ZOOM_CONSTANTS.MIN_SPAN_MS: one day in milliseconds. -/
def ONE_DAY_MS : ℚ := 24 * 60 * 60 * 1000

/-- Embedding of getCurrentRange(scale): the scale's min/max resolve to the
x-option values when set, else fall back to the default range; null when
unresolvable or the span is not positive. -/
def getCurrentRange (st : DetailState) : Option TimeRange :=
  let rmin := match st.xMin with
    | some m => some m
    | none => st.defaultTimeRange.map (fun d => d.min)
  let rmax := match st.xMax with
    | some m => some m
    | none => st.defaultTimeRange.map (fun d => d.max)
  match rmin, rmax with
  | some a, some b => if b ≤ a then none else some { min := a, max := b }
  | _, _ => none

/-- Embedding of manualZoom(factor): clamp the target span between
minSpan = max(defaultSpan / 200, one day) and the default span (reaching
the default span resets), recenter, shift the window back inside the
default range, and write the result into the x-scale options. -/
def manualZoom (factor : ℚ) (st : DetailState) : DetailState :=
  match st.defaultTimeRange with
  | none => st
  | some d =>
      match getCurrentRange st with
      | none => st
      | some r =>
          let defaultSpan := d.max - d.min
          if defaultSpan ≤ 0 then st
          else
            let currentSpan := r.max - r.min
            if currentSpan ≤ 0 then st
            else
              let targetSpan := currentSpan / factor
              let minSpan := max (defaultSpan / 200) ONE_DAY_MS
              let nextSpan := max minSpan targetSpan
              if defaultSpan ≤ nextSpan then manualResetZoom st
              else
                let center := r.min + currentSpan / 2
                let m0 := center - nextSpan / 2
                let M0 := center + nextSpan / 2
                let m1 := if m0 < d.min then m0 + (d.min - m0) else m0
                let M1 := if m0 < d.min then M0 + (d.min - m0) else M0
                let m2 := if d.max < M1 then m1 - (M1 - d.max) else m1
                let M2 := if d.max < M1 then M1 - (M1 - d.max) else M1
                let m3 := max d.min m2
                let M3 := min d.max M2
                if M3 ≤ m3 then manualResetZoom st
                else { st with xMin := some m3, xMax := some M3 }

/-- Sum of the length-p window of vs ending just before index n (Nat
subtraction truncates the window at the start of the series). -/
def winSum (vs : List ℚ) (p n : Nat) : ℚ :=
  ∑ j ∈ Finset.Ico (n - p) n, vs.getD j 0

/-- One step of the computeEMA loop body, as a function of the previous
running EMA and the current input: a null input keeps the previous value,
a numeric input either seeds (prev null) or smooths. -/
def emaStep (k : ℚ) (prev v : Option ℚ) : Option ℚ :=
  match v with
  | none => prev
  | some x =>
      match prev with
      | none => some x
      | some pr => some (x * k + pr * (1 - k))

/-! ### Derived definitions used to state properties, and concrete states -/

/-- The initial page state of detail.js: interval '1d', no history, no
default range, overlay counter 1, empty overlay map, null request slots,
no explicit x-scale bounds. -/
def initialState : DetailState :=
  { currentInterval := "1d"
    baseHistory := []
    defaultTimeRange := none
    shouldResetZoom := false
    overlayCounter := 1
    overlays := []
    requests := { currentHistory := none, overlayRefresh := none }
    xMin := none
    xMax := none }

/-- A history point of the daily (interval A) response. -/
def histPointA : HistoryItem := { date := some 1000, close := some 5 }

/-- A history point of the weekly (interval B) response. -/
def histPointB : HistoryItem := { date := some 2000, close := some 7 }

/-- A state whose default range spans ten days, used to exercise the zoom. -/
def zoomWitnessState : DetailState :=
  { initialState with defaultTimeRange := some { min := 0, max := 864000000 } }

/-- A state zoomed to a 100-day window inside a 400-day default range. -/
def roundtripWitnessState : DetailState :=
  { initialState with
    defaultTimeRange := some { min := 0, max := 34560000000 }
    xMin := some 0
    xMax := some 8640000000 }

/-- A state that already holds a non-empty base series. -/
def priorHistoryState : DetailState :=
  { initialState with baseHistory := [histPointA] }

/-- The SMA(20) overlay of the partial-failure scenario, with a last good
dataset already attached. -/
def smaOverlayDef : OverlayDef :=
  { id := 1, type := "sma", window := 20, color := "#888888",
    dataset := some (buildOverlayDataset
      { id := 1, type := "sma", window := 20, color := "#888888", dataset := none }
      [{ date := some 1000, value := some 3 }]) }

/-- The EMA(50) overlay of the partial-failure scenario, with a last good
dataset already attached. -/
def emaOverlayDef : OverlayDef :=
  { id := 2, type := "ema", window := 50, color := "#d62728",
    dataset := some (buildOverlayDataset
      { id := 2, type := "ema", window := 50, color := "#d62728", dataset := none }
      [{ date := some 1000, value := some 4 }]) }

/-- A state carrying the two overlays SMA(20) and EMA(50). -/
def twoOverlayState : DetailState :=
  { initialState with
    overlayCounter := 3
    overlays := [(1, smaOverlayDef), (2, emaOverlayDef)] }

/-- Fetch outcomes of the partial-failure scenario: the SMA overlay's
recompute (id 1) is rejected, the EMA overlay's (id 2) resolves. -/
def overlayResults : Nat → Except Unit (List IndPoint) :=
  fun i => if i = 2 then .ok [{ date := some 1000, value := some 9 }] else .error ()

/-! ## Generic helper lemmas -/

theorem listSetExtend_getD (xs : List (Option ℚ)) (i : Nat) (v : Option ℚ) (j : Nat) :
    (listSetExtend xs i v).getD j none = if j = i then v else xs.getD j none := by
  unfold listSetExtend
  simp only [List.getD_eq_getElem?_getD]
  split
  · rename_i hlt
    rw [List.getElem?_set]
    rcases eq_or_ne j i with rfl | hne
    · simp [hlt]
    · simp [hne, Ne.symm hne]
  · rename_i hge
    push_neg at hge
    have hA : (xs ++ List.replicate (i - xs.length) (none : Option ℚ)).length = i := by
      simp [List.length_replicate]
      omega
    rw [List.getElem?_append, hA]
    rcases eq_or_ne j i with rfl | hne
    · simp
    · rw [if_neg hne]
      rcases lt_or_le j i with hji | hij
      · rw [if_pos hji, List.getElem?_append]
        rcases lt_or_le j xs.length with hjl | hjl
        · rw [if_pos hjl]
        · rw [if_neg (by omega), List.getElem?_replicate, if_pos (by omega)]
          rw [List.getElem?_eq_none hjl]
          rfl
      · rw [if_neg (by omega)]
        rw [List.getElem?_eq_none (show ([v] : List (Option ℚ)).length ≤ j - i by simp; omega)]
        rw [List.getElem?_eq_none (by omega)]

theorem listSetExtend_length (xs : List (Option ℚ)) (i : Nat) (v : Option ℚ) :
    (listSetExtend xs i v).length = if i < xs.length then xs.length else i + 1 := by
  unfold listSetExtend
  split
  · simp
  · simp [List.length_replicate]
    omega

theorem getD_replicate_none (L j : Nat) :
    (List.replicate L (none : Option ℚ)).getD j none = none := by
  rw [List.getD_eq_getElem?_getD, List.getElem?_replicate]
  split <;> rfl

theorem getD_map_some (vs : List ℚ) (i : Nat) :
    numOr0 ((vs.map some).getD i none) = vs.getD i 0 := by
  rw [List.getD_eq_getElem?_getD, List.getD_eq_getElem?_getD, List.getElem?_map]
  cases vs[i]? <;> simp [numOr0]

/-! ## computeSMA: window characterization -/

theorem winSum_succ (vs : List ℚ) (p n : Nat) :
    winSum vs p (n + 1) =
      winSum vs p n + vs.getD n 0 - (if p ≤ n then vs.getD (n - p) 0 else 0) := by
  unfold winSum
  rcases le_or_lt p n with hpn | hpn
  · have h1 : n + 1 - p = (n - p) + 1 := by omega
    rw [h1]
    have h2 : ∑ j ∈ Finset.Ico (n - p) (n + 1), vs.getD j 0
        = ∑ j ∈ Finset.Ico (n - p) n, vs.getD j 0 + vs.getD n 0 :=
      Finset.sum_Ico_succ_top (by omega) _
    have h3 : ∑ j ∈ Finset.Ico (n - p) (n + 1), vs.getD j 0
        = vs.getD (n - p) 0 + ∑ j ∈ Finset.Ico ((n - p) + 1) (n + 1), vs.getD j 0 :=
      Finset.sum_eq_sum_Ico_succ_bot (by omega) _
    simp only [if_pos hpn]
    linarith
  · have h1 : n + 1 - p = 0 := by omega
    have h2 : n - p = 0 := by omega
    rw [h1, h2]
    rw [Finset.sum_Ico_succ_top (by omega) _]
    simp [hpn.not_le]

theorem smaFold_append (values : List (Option ℚ)) (p : Nat) (xs ys : List Nat)
    (s : ℚ × List (Option ℚ)) :
    smaFold values p (xs ++ ys) s = smaFold values p ys (smaFold values p xs s) := by
  induction xs generalizing s with
  | nil => rfl
  | cons a xs ih =>
      obtain ⟨sum, out⟩ := s
      simp only [List.cons_append, smaFold]
      exact ih _

theorem smaFold_range_spec (vs : List ℚ) (p : Nat) (n : Nat) :
    (smaFold (vs.map some) p (List.range n) (0, List.replicate vs.length none)).1
        = winSum vs p n ∧
    (smaFold (vs.map some) p (List.range n) (0, List.replicate vs.length none)).2.length
        = vs.length ∧
    (∀ j, (smaFold (vs.map some) p (List.range n) (0, List.replicate vs.length none)).2.getD j none
        = if j < n ∧ p - 1 ≤ j ∧ j < vs.length then some (winSum vs p (j + 1) / p) else none) := by
  induction n with
  | zero =>
      refine ⟨by simp [smaFold, winSum], by simp [smaFold], fun j => ?_⟩
      simp [smaFold, getD_replicate_none]
  | succ n ih =>
      obtain ⟨ihs, ihl, ihg⟩ := ih
      rw [List.range_succ]
      rw [smaFold_append]
      set S := smaFold (vs.map some) p (List.range n) (0, List.replicate vs.length none) with hS
      obtain ⟨sum, out⟩ := S
      simp only at ihs ihl ihg
      simp only [smaFold]
      have hsum2 : (if p ≤ n then sum + numOr0 ((vs.map some).getD n none)
            - numOr0 ((vs.map some).getD (n - p) none)
          else sum + numOr0 ((vs.map some).getD n none)) = winSum vs p (n + 1) := by
        rw [winSum_succ, ← ihs, getD_map_some, getD_map_some]
        split <;> ring
      constructor
      · simpa using hsum2
      constructor
      · split <;> simp [ihl]
      · intro j
        have hout2 : ∀ o : List (Option ℚ), o = (if p - 1 ≤ n then
              out.set n (some ((if p ≤ n then sum + numOr0 ((vs.map some).getD n none)
                  - numOr0 ((vs.map some).getD (n - p) none)
                else sum + numOr0 ((vs.map some).getD n none)) / (p : ℚ)))
            else out) → o.getD j none = if j < n + 1 ∧ p - 1 ≤ j ∧ j < vs.length then
              some (winSum vs p (j + 1) / p) else none := by
          intro o ho
          rw [ho]
          split
          · rename_i hpn
            rw [List.getD_eq_getElem?_getD, List.getElem?_set]
            rcases eq_or_ne n j with rfl | hne
            · simp only [if_pos rfl, ihl]
              rw [hsum2]
              rcases lt_or_le n vs.length with hnL | hnL
              · rw [if_pos hnL]
                simp [hnL, hpn]
              · rw [if_neg (Nat.not_lt.2 hnL),
                  if_neg (show ¬ (n < n + 1 ∧ p - 1 ≤ n ∧ n < vs.length) by omega)]
                rfl
            · rw [if_neg hne, ← List.getD_eq_getElem?_getD, ihg j]
              have : (j < n ∧ p - 1 ≤ j ∧ j < vs.length)
                  ↔ (j < n + 1 ∧ p - 1 ≤ j ∧ j < vs.length) := by
                constructor
                · rintro ⟨h1, h2, h3⟩; exact ⟨by omega, h2, h3⟩
                · rintro ⟨h1, h2, h3⟩
                  exact ⟨by omega, h2, h3⟩
              rw [if_congr this rfl rfl]
          · rename_i hpn
            rw [ihg j]
            have : (j < n ∧ p - 1 ≤ j ∧ j < vs.length)
                ↔ (j < n + 1 ∧ p - 1 ≤ j ∧ j < vs.length) := by
              constructor
              · rintro ⟨h1, h2, h3⟩; exact ⟨by omega, h2, h3⟩
              · rintro ⟨h1, h2, h3⟩
                refine ⟨?_, h2, h3⟩
                omega
            rw [if_congr this rfl rfl]
        exact hout2 _ rfl

theorem computeSMA_length (vs : List ℚ) (p : Nat) :
    (computeSMA (vs.map some) p).length = vs.length := by
  unfold computeSMA
  split
  · simp
  · simpa using (smaFold_range_spec vs p (vs.map some).length).2.1

/-- Claim C5.  For a numeric series vs and period p with 2 ≤ p ≤ length vs,
computeSMA preserves the length, leaves indices 0..p-2 absent and produces
the arithmetic mean of the trailing p-window at every index i ≥ p-1. -/
theorem sma_window_correct (vs : List ℚ) (p : Nat) (h2 : 2 ≤ p) (hL : p ≤ vs.length) :
    (computeSMA (vs.map some) p).length = vs.length ∧
    (∀ i, i + 1 < p → (computeSMA (vs.map some) p).getD i none = none) ∧
    (∀ i, p - 1 ≤ i → i < vs.length →
      (computeSMA (vs.map some) p).getD i none
        = some ((∑ j ∈ Finset.Ico (i + 1 - p) (i + 1), vs.getD j 0) / p)) := by
  have hguard : ¬ p ≤ 1 := by omega
  obtain ⟨_, hlen, hget⟩ := smaFold_range_spec vs p (vs.map some).length
  have hunf : computeSMA (vs.map some) p
      = (smaFold (vs.map some) p (List.range (vs.map some).length)
          (0, List.replicate vs.length none)).2 := by
    unfold computeSMA
    rw [if_neg hguard]
    simp
  refine ⟨?_, ?_, ?_⟩
  · rw [hunf, hlen]
  · intro i hi
    rw [hunf, hget i, if_neg (by simp; intro _ h; omega)]
  · intro i hpi hiL
    rw [hunf, hget i, if_pos ⟨by simpa using hiL, hpi, hiL⟩]
    rfl

/-- Witness for sma_window_correct at the spec's own example
values = [10,11,12,13,14], p = 3 (output [absent, absent, 11, 12, 13]). -/
theorem sma_window_correct_witness :
    2 ≤ 3 ∧ 3 ≤ ([(10 : ℚ), 11, 12, 13, 14]).length ∧
    ((computeSMA ([(10 : ℚ), 11, 12, 13, 14].map some) 3).length
        = ([(10 : ℚ), 11, 12, 13, 14]).length ∧
    (∀ i, i + 1 < 3 → (computeSMA ([(10 : ℚ), 11, 12, 13, 14].map some) 3).getD i none = none) ∧
    (∀ i, 3 - 1 ≤ i → i < ([(10 : ℚ), 11, 12, 13, 14]).length →
      (computeSMA ([(10 : ℚ), 11, 12, 13, 14].map some) 3).getD i none
        = some ((∑ j ∈ Finset.Ico (i + 1 - 3) (i + 1), [(10 : ℚ), 11, 12, 13, 14].getD j 0) / 3))) :=
  ⟨by norm_num, by norm_num,
    sma_window_correct [(10 : ℚ), 11, 12, 13, 14] 3 (by norm_num) (by norm_num)⟩

/-- Claim C3 (refuting exhibit).  computeRSI applied to the two-element
numeric series [1, 2] with period 2 returns a series of length 3: the
unconditional write out[period] extends the JavaScript array past the input
length whenever period ≥ values.length, so the returned indicator series is
longer than its source series. -/
theorem rsi_length_bug :
    (computeRSI [some (1 : ℚ), some 2] 2).length = 3 ∧
    [some (1 : ℚ), some 2].length = 2 := by
  constructor
  · rfl
  · rfl

/-! ## computeEMA: characterization -/

theorem emaGo_length (k : ℚ) (values : List (Option ℚ)) (prev : Option ℚ) :
    (emaGo k prev values).length = values.length := by
  induction values generalizing prev with
  | nil => rfl
  | cons v rest ih =>
      cases v with
      | none => simpa [emaGo] using ih prev
      | some x => simp [emaGo, ih]

theorem emaGo_cons (k : ℚ) (prev : Option ℚ) (v : Option ℚ) (rest : List (Option ℚ)) :
    emaGo k prev (v :: rest) = emaStep k prev v :: emaGo k (emaStep k prev v) rest := by
  cases v with
  | none => rfl
  | some x =>
      cases prev with
      | none => rfl
      | some pr => rfl

theorem emaGo_getD_zero (k : ℚ) (prev : Option ℚ) (v : Option ℚ) (rest : List (Option ℚ)) :
    (emaGo k prev (v :: rest)).getD 0 none = emaStep k prev v := by
  rw [emaGo_cons]
  rfl

theorem emaGo_getD_succ (k : ℚ) (values : List (Option ℚ)) (prev : Option ℚ) (i : Nat)
    (h : i + 1 < values.length) :
    (emaGo k prev values).getD (i + 1) none
      = emaStep k ((emaGo k prev values).getD i none) (values.getD (i + 1) none) := by
  induction values generalizing prev i with
  | nil => simp at h
  | cons v rest ih =>
      rw [emaGo_cons]
      cases i with
      | zero =>
          have hne : rest ≠ [] := by
            intro hr
            rw [hr] at h
            simp at h
          obtain ⟨u, rest', rfl⟩ := List.exists_cons_of_ne_nil hne
          simp only [List.getD_cons_succ, List.getD_cons_zero]
          exact emaGo_getD_zero k _ u rest'
      | succ j =>
          simp only [List.getD_cons_succ]
          exact ih _ j (by simpa using h)

/-- Claim C2 (counterexample).  On the numeric series [10, 11, 12] with
period 3, the source EMA is already defined at index 0 (it seeds with the
first raw value), whereas the claim requires every index below period-1 to
be absent and index 2 to hold the simple average 11; the code yields 45/4
there instead. -/
theorem ema_seed_counterexample :
    ¬ ((computeEMA ([(10 : ℚ), 11, 12].map some) 3).getD 0 none = none) ∧
    (computeEMA ([(10 : ℚ), 11, 12].map some) 3).getD 0 none = some 10 ∧
    (computeEMA ([(10 : ℚ), 11, 12].map some) 3).getD 2 none = some (45 / 4) ∧
    ¬ ((45 : ℚ) / 4 = 11) := by
  refine ⟨?_, ?_, ?_, ?_⟩
  · norm_num [computeEMA, emaGo]
    intro h
    exact Option.noConfusion h
  · norm_num [computeEMA, emaGo]
  · norm_num [computeEMA, emaGo]
  · norm_num

/-- Claim C2 (amended).  The source EMA seeds at the first non-null input
with that raw value rather than with the simple average of the first
period values, and has no leading absent window: output index 0 equals
input index 0; afterwards a null input carries the previous EMA forward
unchanged, a numeric input x seeds when no EMA exists yet, and otherwise
ema[i] = x * k + ema[i-1] * (1 - k) with k = 2 / (period + 1). -/
theorem ema_first_value_seed (values : List (Option ℚ)) (p : Nat) (hp : 2 ≤ p) :
    (computeEMA values p).length = values.length ∧
    (computeEMA values p).getD 0 none = values.getD 0 none ∧
    (∀ i, i + 1 < values.length →
      (values.getD (i + 1) none = none →
        (computeEMA values p).getD (i + 1) none = (computeEMA values p).getD i none) ∧
      (∀ x, values.getD (i + 1) none = some x →
        (computeEMA values p).getD i none = none →
        (computeEMA values p).getD (i + 1) none = some x) ∧
      (∀ x pr, values.getD (i + 1) none = some x →
        (computeEMA values p).getD i none = some pr →
        (computeEMA values p).getD (i + 1) none
          = some (x * (2 / ((p : ℚ) + 1)) + pr * (1 - 2 / ((p : ℚ) + 1))))) := by
  have hguard : ¬ p ≤ 1 := by omega
  have hunf : computeEMA values p = emaGo (2 / ((p : ℚ) + 1)) none values := by
    unfold computeEMA
    rw [if_neg hguard]
  refine ⟨by rw [hunf]; exact emaGo_length _ _ _, ?_, ?_⟩
  · rw [hunf]
    cases values with
    | nil => rfl
    | cons v rest =>
        rw [emaGo_getD_zero]
        cases v <;> rfl
  · intro i hi
    have hstep := emaGo_getD_succ (2 / ((p : ℚ) + 1)) values none i hi
    rw [← hunf] at hstep
    refine ⟨?_, ?_, ?_⟩
    · intro hnone
      rw [hstep, hnone]
      rfl
    · intro x hx hprev
      rw [hstep, hx, hprev]
      rfl
    · intro x pr hx hprev
      rw [hstep, hx, hprev]
      rfl

/-- Witness for ema_first_value_seed on the series [10, null, 12] with
period 2, exercising the seed, the gap carry and the smoothing equation. -/
theorem ema_first_value_seed_witness :
    2 ≤ 2 ∧
    ((computeEMA [some (10 : ℚ), none, some 12] 2).length
        = ([some (10 : ℚ), none, some 12]).length ∧
    (computeEMA [some (10 : ℚ), none, some 12] 2).getD 0 none
        = ([some (10 : ℚ), none, some 12]).getD 0 none ∧
    (∀ i, i + 1 < ([some (10 : ℚ), none, some 12]).length →
      (([some (10 : ℚ), none, some 12]).getD (i + 1) none = none →
        (computeEMA [some (10 : ℚ), none, some 12] 2).getD (i + 1) none
          = (computeEMA [some (10 : ℚ), none, some 12] 2).getD i none) ∧
      (∀ x, ([some (10 : ℚ), none, some 12]).getD (i + 1) none = some x →
        (computeEMA [some (10 : ℚ), none, some 12] 2).getD i none = none →
        (computeEMA [some (10 : ℚ), none, some 12] 2).getD (i + 1) none = some x) ∧
      (∀ x pr, ([some (10 : ℚ), none, some 12]).getD (i + 1) none = some x →
        (computeEMA [some (10 : ℚ), none, some 12] 2).getD i none = some pr →
        (computeEMA [some (10 : ℚ), none, some 12] 2).getD (i + 1) none
          = some (x * (2 / ((2 : ℚ) + 1)) + pr * (1 - 2 / ((2 : ℚ) + 1)))))) :=
  ⟨by norm_num, ema_first_value_seed [some (10 : ℚ), none, some 12] 2 (by norm_num)⟩

/-! ## computeRSI: bounds and window sign lemmas -/

theorem rsiVal_loss_zero (ag : ℚ) : rsiVal ag 0 = 100 := by
  unfold rsiVal
  rw [if_pos rfl]

theorem rsiVal_gain_zero (al : ℚ) (hal : 0 < al) : rsiVal 0 al = 0 := by
  unfold rsiVal
  rw [if_neg hal.ne', zero_div]
  norm_num

theorem rsiVal_bounds (ag al : ℚ) (hag : 0 ≤ ag) (hal : 0 ≤ al) :
    0 ≤ rsiVal ag al ∧ rsiVal ag al ≤ 100 := by
  unfold rsiVal
  split
  · norm_num
  · rename_i h
    have hal' : (0 : ℚ) < al := lt_of_le_of_ne hal (Ne.symm h)
    have hrs : (0 : ℚ) ≤ ag / al := div_nonneg hag hal'.le
    constructor
    · have hle : 100 / (1 + ag / al) ≤ 100 := div_le_self (by norm_num) (by linarith)
      linarith
    · have hpos : (0 : ℚ) < 100 / (1 + ag / al) := div_pos (by norm_num) (by linarith)
      linarith

theorem rsiInitFold_fst_nonneg (values : List (Option ℚ)) (idxs : List Nat) (g l : ℚ)
    (hg : 0 ≤ g) : 0 ≤ (rsiInitFold values idxs (g, l)).1 := by
  induction idxs generalizing g l with
  | nil => exact hg
  | cons a rest ih =>
      simp only [rsiInitFold]
      split
      · rename_i hc
        exact ih _ _ (by linarith)
      · exact ih _ _ hg

theorem rsiInitFold_snd_mono (values : List (Option ℚ)) (idxs : List Nat) (g l : ℚ) :
    l ≤ (rsiInitFold values idxs (g, l)).2 := by
  induction idxs generalizing g l with
  | nil => exact le_refl l
  | cons a rest ih =>
      simp only [rsiInitFold]
      split
      · exact ih _ _
      · rename_i hc
        push_neg at hc
        calc l ≤ l - jsChange values a := by linarith
          _ ≤ _ := ih _ _

theorem rsiInitFold_snd_nonneg (values : List (Option ℚ)) (idxs : List Nat) (g l : ℚ)
    (hl : 0 ≤ l) : 0 ≤ (rsiInitFold values idxs (g, l)).2 :=
  le_trans hl (rsiInitFold_snd_mono values idxs g l)

theorem rsiInitFold_snd_eq (values : List (Option ℚ)) (idxs : List Nat) (g l : ℚ)
    (h : ∀ i ∈ idxs, 0 ≤ jsChange values i) : (rsiInitFold values idxs (g, l)).2 = l := by
  induction idxs generalizing g l with
  | nil => rfl
  | cons a rest ih =>
      simp only [rsiInitFold]
      split
      · exact ih _ _ (fun i hi => h i (List.mem_cons_of_mem a hi))
      · rename_i hc
        push_neg at hc
        have ha : jsChange values a = 0 :=
          le_antisymm hc (h a (List.mem_cons_self a rest))
        rw [ha, sub_zero]
        exact ih _ _ (fun i hi => h i (List.mem_cons_of_mem a hi))

theorem rsiInitFold_fst_eq (values : List (Option ℚ)) (idxs : List Nat) (g l : ℚ)
    (h : ∀ i ∈ idxs, jsChange values i ≤ 0) : (rsiInitFold values idxs (g, l)).1 = g := by
  induction idxs generalizing g l with
  | nil => rfl
  | cons a rest ih =>
      simp only [rsiInitFold]
      split
      · rename_i hc
        exact absurd hc (not_lt.2 (h a (List.mem_cons_self a rest)))
      · exact ih _ _ (fun i hi => h i (List.mem_cons_of_mem a hi))

theorem rsiInitFold_snd_pos (values : List (Option ℚ)) (idxs : List Nat) (g l : ℚ)
    (hl : 0 ≤ l) (j : Nat) (hj : j ∈ idxs) (hneg : jsChange values j < 0) :
    0 < (rsiInitFold values idxs (g, l)).2 := by
  induction idxs generalizing g l with
  | nil => simp at hj
  | cons a rest ih =>
      simp only [rsiInitFold]
      rcases List.mem_cons.1 hj with rfl | hjr
      · rw [if_neg (by linarith)]
        have h1 : 0 < l - jsChange values j := by linarith
        calc (0 : ℚ) < l - jsChange values j := h1
          _ ≤ _ := rsiInitFold_snd_mono values rest _ _
      · split
        · exact ih _ _ hl hjr
        · rename_i hc
          push_neg at hc
          exact ih _ _ (by linarith) hjr

/-! ## computeRSI: smoothing fold lemmas -/

theorem rsiFold_append (values : List (Option ℚ)) (p : ℚ) (xs ys : List Nat)
    (s : ℚ × ℚ × List (Option ℚ)) :
    rsiFold values p (xs ++ ys) s = rsiFold values p ys (rsiFold values p xs s) := by
  induction xs generalizing s with
  | nil => rfl
  | cons a xs ih =>
      obtain ⟨ag, al, out⟩ := s
      simp only [List.cons_append, rsiFold]
      exact ih _

theorem rsiFold_getD_not_mem (values : List (Option ℚ)) (p : ℚ) (idxs : List Nat)
    (s : ℚ × ℚ × List (Option ℚ)) (j : Nat) (hj : ∀ i ∈ idxs, j ≠ i) :
    (rsiFold values p idxs s).2.2.getD j none = s.2.2.getD j none := by
  induction idxs generalizing s with
  | nil => rfl
  | cons a rest ih =>
      obtain ⟨ag, al, out⟩ := s
      simp only [rsiFold]
      rw [ih _ (fun i hi => hj i (List.mem_cons_of_mem a hi))]
      simp only
      rw [listSetExtend_getD, if_neg (hj a (List.mem_cons_self a rest))]

theorem rsiFold_nonneg (values : List (Option ℚ)) (p : ℚ) (hp : 2 ≤ p) (idxs : List Nat)
    (ag al : ℚ) (out : List (Option ℚ)) (hag : 0 ≤ ag) (hal : 0 ≤ al) :
    0 ≤ (rsiFold values p idxs (ag, al, out)).1 ∧
    0 ≤ (rsiFold values p idxs (ag, al, out)).2.1 := by
  induction idxs generalizing ag al out with
  | nil => exact ⟨hag, hal⟩
  | cons a rest ih =>
      simp only [rsiFold]
      refine ih _ _ _ ?_ ?_
      · have h1 : 0 ≤ ag * (p - 1) := mul_nonneg hag (by linarith)
        have h2 : (0 : ℚ) ≤ max 0 (jsChange values a) := le_max_left _ _
        positivity
      · have h1 : 0 ≤ al * (p - 1) := mul_nonneg hal (by linarith)
        have h2 : (0 : ℚ) ≤ max 0 (-jsChange values a) := le_max_left _ _
        positivity

theorem rsiFold_getD_bounds (values : List (Option ℚ)) (p : ℚ) (hp : 2 ≤ p) (idxs : List Nat)
    (ag al : ℚ) (out : List (Option ℚ)) (hag : 0 ≤ ag) (hal : 0 ≤ al)
    (hout : ∀ j q, out.getD j none = some q → 0 ≤ q ∧ q ≤ 100) :
    ∀ j q, (rsiFold values p idxs (ag, al, out)).2.2.getD j none = some q → 0 ≤ q ∧ q ≤ 100 := by
  induction idxs generalizing ag al out with
  | nil => exact hout
  | cons a rest ih =>
      simp only [rsiFold]
      have hag2 : 0 ≤ (ag * (p - 1) + max 0 (jsChange values a)) / p := by
        have h1 : 0 ≤ ag * (p - 1) := mul_nonneg hag (by linarith)
        have h2 : (0 : ℚ) ≤ max 0 (jsChange values a) := le_max_left _ _
        positivity
      have hal2 : 0 ≤ (al * (p - 1) + max 0 (-jsChange values a)) / p := by
        have h1 : 0 ≤ al * (p - 1) := mul_nonneg hal (by linarith)
        have h2 : (0 : ℚ) ≤ max 0 (-jsChange values a) := le_max_left _ _
        positivity
      refine ih _ _ _ hag2 hal2 ?_
      intro j q hjq
      rw [listSetExtend_getD] at hjq
      split at hjq
      · cases hjq
        exact rsiVal_bounds _ _ hag2 hal2
      · exact hout j q hjq

theorem rsiFold_all_nonneg (values : List (Option ℚ)) (p : ℚ) (idxs : List Nat)
    (ag al : ℚ) (out : List (Option ℚ)) (hal : al = 0)
    (hch : ∀ i ∈ idxs, 0 ≤ jsChange values i) (hsorted : idxs.Pairwise (· < ·)) :
    ∀ i ∈ idxs, (rsiFold values p idxs (ag, al, out)).2.2.getD i none = some 100 := by
  induction idxs generalizing ag al out with
  | nil => intro i hi; simp at hi
  | cons a rest ih =>
      intro i hi
      simp only [rsiFold]
      have hcha : 0 ≤ jsChange values a := hch a (List.mem_cons_self a rest)
      have hmax : max 0 (-jsChange values a) = 0 := max_eq_left (by linarith)
      have hal2 : (al * (p - 1) + max 0 (-jsChange values a)) / p = 0 := by
        rw [hal, hmax]
        simp
      rcases List.mem_cons.1 hi with rfl | hir
      · rw [rsiFold_getD_not_mem _ _ _ _ _
            (fun j hj => Nat.ne_of_lt ((List.pairwise_cons.1 hsorted).1 j hj))]
        simp only
        rw [hal2, rsiVal_loss_zero, listSetExtend_getD, if_pos rfl]
      · exact ih _ _ _ hal2 (fun j hj => hch j (List.mem_cons_of_mem a hj))
          (List.pairwise_cons.1 hsorted).2 i hir

theorem rsiFold_all_nonpos (values : List (Option ℚ)) (p : ℚ) (hp : 2 ≤ p) (idxs : List Nat)
    (ag al : ℚ) (out : List (Option ℚ)) (hag : ag = 0) (hal : 0 ≤ al)
    (hch : ∀ i ∈ idxs, jsChange values i ≤ 0) (hsorted : idxs.Pairwise (· < ·)) :
    ∀ i ∈ idxs, (0 < al ∨ ∃ j ∈ idxs, j ≤ i ∧ jsChange values j < 0) →
      (rsiFold values p idxs (ag, al, out)).2.2.getD i none = some 0 := by
  induction idxs generalizing ag al out with
  | nil => intro i hi; simp at hi
  | cons a rest ih =>
      intro i hi hcase
      simp only [rsiFold]
      have hcha : jsChange values a ≤ 0 := hch a (List.mem_cons_self a rest)
      have hmaxg : max 0 (jsChange values a) = 0 := max_eq_left hcha
      have hag2 : (ag * (p - 1) + max 0 (jsChange values a)) / p = 0 := by
        rw [hag, hmaxg]
        simp
      have hal2nn : 0 ≤ (al * (p - 1) + max 0 (-jsChange values a)) / p := by
        have h1 : 0 ≤ al * (p - 1) := mul_nonneg hal (by linarith)
        have h2 : (0 : ℚ) ≤ max 0 (-jsChange values a) := le_max_left _ _
        positivity
      have halpos : 0 < al → 0 < (al * (p - 1) + max 0 (-jsChange values a)) / p := by
        intro h
        have h1 : 0 < al * (p - 1) := mul_pos h (by linarith)
        have h2 : (0 : ℚ) ≤ max 0 (-jsChange values a) := le_max_left _ _
        have : 0 < al * (p - 1) + max 0 (-jsChange values a) := by linarith
        positivity
      have hanegpos : jsChange values a < 0 →
          0 < (al * (p - 1) + max 0 (-jsChange values a)) / p := by
        intro h
        have h1 : 0 ≤ al * (p - 1) := mul_nonneg hal (by linarith)
        have h2 : (0 : ℚ) < max 0 (-jsChange values a) := by
          rw [max_eq_right (by linarith)]
          linarith
        have : 0 < al * (p - 1) + max 0 (-jsChange values a) := by linarith
        positivity
      rcases List.mem_cons.1 hi with heq | hir
      · subst heq
        have hpos : 0 < (al * (p - 1) + max 0 (-jsChange values i)) / p := by
          rcases hcase with h | ⟨j, hjmem, hjle, hjneg⟩
          · exact halpos h
          · rcases List.mem_cons.1 hjmem with heq2 | hjr
            · rw [heq2] at hjneg
              exact hanegpos hjneg
            · exact absurd hjle
                (not_le.2 ((List.pairwise_cons.1 hsorted).1 j hjr))
        rw [rsiFold_getD_not_mem _ _ _ _ _
            (fun j hj => Nat.ne_of_lt ((List.pairwise_cons.1 hsorted).1 j hj))]
        simp only
        rw [hag2, rsiVal_gain_zero _ hpos, listSetExtend_getD, if_pos rfl]
      · refine ih _ _ _ hag2 hal2nn (fun j hj => hch j (List.mem_cons_of_mem a hj))
          (List.pairwise_cons.1 hsorted).2 i hir ?_
        rcases hcase with h | ⟨j, hjmem, hjle, hjneg⟩
        · exact Or.inl (halpos h)
        · rcases List.mem_cons.1 hjmem with rfl | hjr
          · exact Or.inl (hanegpos hjneg)
          · exact Or.inr ⟨j, hjr, hjle, hjneg⟩

theorem computeRSI_eq (values : List (Option ℚ)) (p : Nat) (hp : ¬ p ≤ 1) :
    computeRSI values p =
      (rsiFold values (p : ℚ) (List.range' (p + 1) (values.length - (p + 1)))
        ((rsiInitFold values (List.range' 1 (min p (values.length - 1))) (0, 0)).1 / p,
         (rsiInitFold values (List.range' 1 (min p (values.length - 1))) (0, 0)).2 / p,
         listSetExtend (List.replicate values.length none) p
           (some (rsiVal
             ((rsiInitFold values (List.range' 1 (min p (values.length - 1))) (0, 0)).1 / p)
             ((rsiInitFold values (List.range' 1 (min p (values.length - 1))) (0, 0)).2 / p))))).2.2 := by
  unfold computeRSI
  rw [if_neg hp]

theorem jsChange_map_some (vs : List ℚ) (j : Nat) :
    jsChange (vs.map some) j = vs.getD j 0 - vs.getD (j - 1) 0 := by
  unfold jsChange jsGet
  rw [getD_map_some, getD_map_some]

/-- Claim C6.  For every numeric series vs and integer period p ≥ 2, every
non-absent RSI output lies in [0, 100]; indices below p are absent and
index p holds the first value; whenever all price changes up to index i are
non-negative the value at i is exactly 100; and whenever all changes are
non-positive with at least one strictly negative change at or before i,
the value at i is exactly 0. -/
theorem rsi_bounds_and_extremes (vs : List ℚ) (p : Nat) (hp : 2 ≤ p) :
    (∀ i q, (computeRSI (vs.map some) p).getD i none = some q → 0 ≤ q ∧ q ≤ 100) ∧
    (∀ i, i < p → (computeRSI (vs.map some) p).getD i none = none) ∧
    (∃ q, (computeRSI (vs.map some) p).getD p none = some q) ∧
    (∀ i, p ≤ i → i < vs.length →
      (∀ j, 1 ≤ j → j ≤ i → 0 ≤ vs.getD j 0 - vs.getD (j - 1) 0) →
      (computeRSI (vs.map some) p).getD i none = some 100) ∧
    (∀ i, p ≤ i → i < vs.length →
      (∀ j, 1 ≤ j → j < vs.length → vs.getD j 0 - vs.getD (j - 1) 0 ≤ 0) →
      (∃ j, 1 ≤ j ∧ j ≤ i ∧ vs.getD j 0 - vs.getD (j - 1) 0 < 0) →
      (computeRSI (vs.map some) p).getD i none = some 0) := by
  have hguard : ¬ p ≤ 1 := by omega
  have hpq : (2 : ℚ) ≤ (p : ℚ) := by exact_mod_cast hp
  have hppos : (0 : ℚ) < (p : ℚ) := by linarith
  set values := vs.map some with hvalues
  have hLen : values.length = vs.length := by simp [hvalues]
  set win := List.range' 1 (min p (values.length - 1)) with hwin
  set idxs := List.range' (p + 1) (values.length - (p + 1)) with hidxs
  set G := (rsiInitFold values win (0, 0)).1 with hG
  set Lo := (rsiInitFold values win (0, 0)).2 with hLo
  set ag0 := G / (p : ℚ) with hag0
  set al0 := Lo / (p : ℚ) with hal0
  set out0 := listSetExtend (List.replicate values.length none) p (some (rsiVal ag0 al0))
    with hout0
  have hrw : computeRSI values p = (rsiFold values (p : ℚ) idxs (ag0, al0, out0)).2.2 :=
    computeRSI_eq values p hguard
  have hGnn : 0 ≤ G := rsiInitFold_fst_nonneg values win 0 0 le_rfl
  have hLonn : 0 ≤ Lo := rsiInitFold_snd_nonneg values win 0 0 le_rfl
  have hag0nn : 0 ≤ ag0 := div_nonneg hGnn hppos.le
  have hal0nn : 0 ≤ al0 := div_nonneg hLonn hppos.le
  have hout0b : ∀ j q, out0.getD j none = some q → 0 ≤ q ∧ q ≤ 100 := by
    intro j q hjq
    rw [hout0, listSetExtend_getD] at hjq
    split at hjq
    · cases hjq
      exact rsiVal_bounds _ _ hag0nn hal0nn
    · rw [getD_replicate_none] at hjq
      cases hjq
  have hidxs_mem : ∀ k ∈ idxs, p + 1 ≤ k ∧ k < values.length := by
    intro k hk
    rw [hidxs, List.mem_range'_1] at hk
    omega
  refine ⟨?_, ?_, ?_, ?_, ?_⟩
  · intro i q
    rw [hrw]
    exact rsiFold_getD_bounds values (p : ℚ) hpq idxs ag0 al0 out0 hag0nn hal0nn hout0b i q
  · intro i hip
    rw [hrw, rsiFold_getD_not_mem values (p : ℚ) idxs _ i
      (fun k hk => by have := hidxs_mem k hk; omega)]
    rw [hout0, listSetExtend_getD, if_neg (by omega), getD_replicate_none]
  · rw [hrw, rsiFold_getD_not_mem values (p : ℚ) idxs _ p
      (fun k hk => by have := hidxs_mem k hk; omega)]
    rw [hout0, listSetExtend_getD, if_pos rfl]
    exact ⟨_, rfl⟩
  · intro i hpi hiL hch
    have hch' : ∀ j, 1 ≤ j → j ≤ i → 0 ≤ jsChange values j := by
      intro j h1 h2
      rw [hvalues, jsChange_map_some]
      exact hch j h1 h2
    have hLo0 : Lo = 0 := by
      rw [hLo]
      refine rsiInitFold_snd_eq values win 0 0 ?_
      intro j hj
      rw [hwin, List.mem_range'_1] at hj
      exact hch' j hj.1 (by omega)
    have hal00 : al0 = 0 := by rw [hal0, hLo0, zero_div]
    rcases eq_or_lt_of_le hpi with heq | hlt
    · subst heq
      rw [hrw, rsiFold_getD_not_mem values (p : ℚ) idxs _ p
        (fun k hk => by have := hidxs_mem k hk; omega)]
      rw [hout0, listSetExtend_getD, if_pos rfl, hal00, rsiVal_loss_zero]
    · have hsplitn : values.length - (p + 1) = (values.length - (i + 1)) + (i - p) := by
        rw [hLen]
        omega
      have harg : p + 1 + (i - p) = i + 1 := by omega
      have hsplit : idxs = List.range' (p + 1) (i - p)
          ++ List.range' (i + 1) (values.length - (i + 1)) := by
        rw [hidxs, hsplitn, ← List.range'_append_1, harg]
      rw [hrw, hsplit, rsiFold_append]
      rw [rsiFold_getD_not_mem values (p : ℚ) _ _ i
        (fun k hk => by rw [List.mem_range'_1] at hk; omega)]
      refine rsiFold_all_nonneg values (p : ℚ) _ ag0 al0 out0 hal00 ?_
        (List.pairwise_lt_range' _ _) i ?_
      · intro k hk
        rw [List.mem_range'_1] at hk
        exact hch' k (by omega) (by omega)
      · rw [List.mem_range'_1]
        omega
  · rintro i hpi hiL hch ⟨j, hj1, hjle, hjneg⟩
    have hch' : ∀ j, 1 ≤ j → j < vs.length → jsChange values j ≤ 0 := by
      intro k h1 h2
      rw [hvalues, jsChange_map_some]
      exact hch k h1 h2
    have hjneg' : jsChange values j < 0 := by
      rw [hvalues, jsChange_map_some]
      exact hjneg
    have hG0 : G = 0 := by
      rw [hG]
      refine rsiInitFold_fst_eq values win 0 0 ?_
      intro k hk
      rw [hwin, List.mem_range'_1, hLen] at hk
      exact hch' k hk.1 (by omega)
    have hag00 : ag0 = 0 := by rw [hag0, hG0, zero_div]
    have hwinpos : j ≤ p → 0 < al0 := by
      intro hjp
      have hjwin : j ∈ win := by
        rw [hwin, List.mem_range'_1, hLen]
        omega
      have : 0 < Lo := by
        rw [hLo]
        exact rsiInitFold_snd_pos values win 0 0 le_rfl j hjwin hjneg'
      rw [hal0]
      exact div_pos this hppos
    rcases eq_or_lt_of_le hpi with heq | hlt
    · subst heq
      have hal0pos : 0 < al0 := hwinpos hjle
      rw [hrw, rsiFold_getD_not_mem values (p : ℚ) idxs _ p
        (fun k hk => by have := hidxs_mem k hk; omega)]
      rw [hout0, listSetExtend_getD, if_pos rfl, hag00, rsiVal_gain_zero _ hal0pos]
    · have hsplitn : values.length - (p + 1) = (values.length - (i + 1)) + (i - p) := by
        rw [hLen]
        omega
      have harg : p + 1 + (i - p) = i + 1 := by omega
      have hsplit : idxs = List.range' (p + 1) (i - p)
          ++ List.range' (i + 1) (values.length - (i + 1)) := by
        rw [hidxs, hsplitn, ← List.range'_append_1, harg]
      rw [hrw, hsplit, rsiFold_append]
      rw [rsiFold_getD_not_mem values (p : ℚ) _ _ i
        (fun k hk => by rw [List.mem_range'_1] at hk; omega)]
      refine rsiFold_all_nonpos values (p : ℚ) hpq _ ag0 al0 out0 hag00 hal0nn ?_
        (List.pairwise_lt_range' _ _) i ?_ ?_
      · intro k hk
        rw [List.mem_range'_1] at hk
        refine hch' k (by omega) ?_
        rw [← hLen]
        omega
      · rw [List.mem_range'_1]
        omega
      · rcases le_or_lt j p with hjp | hjp
        · exact Or.inl (hwinpos hjp)
        · refine Or.inr ⟨j, ?_, hjle, hjneg'⟩
          rw [List.mem_range'_1]
          omega

/-- Witness for rsi_bounds_and_extremes on the series [10, 11, 12, 13] with
period 2 (all changes positive, so every defined output is 100). -/
theorem rsi_bounds_and_extremes_witness :
    2 ≤ 2 ∧
    ((∀ i q, (computeRSI ([(10 : ℚ), 11, 12, 13].map some) 2).getD i none = some q →
        0 ≤ q ∧ q ≤ 100) ∧
    (∀ i, i < 2 →
      (computeRSI ([(10 : ℚ), 11, 12, 13].map some) 2).getD i none = none) ∧
    (∃ q, (computeRSI ([(10 : ℚ), 11, 12, 13].map some) 2).getD 2 none = some q) ∧
    (∀ i, 2 ≤ i → i < ([(10 : ℚ), 11, 12, 13]).length →
      (∀ j, 1 ≤ j → j ≤ i →
        0 ≤ ([(10 : ℚ), 11, 12, 13]).getD j 0 - ([(10 : ℚ), 11, 12, 13]).getD (j - 1) 0) →
      (computeRSI ([(10 : ℚ), 11, 12, 13].map some) 2).getD i none = some 100) ∧
    (∀ i, 2 ≤ i → i < ([(10 : ℚ), 11, 12, 13]).length →
      (∀ j, 1 ≤ j → j < ([(10 : ℚ), 11, 12, 13]).length →
        ([(10 : ℚ), 11, 12, 13]).getD j 0 - ([(10 : ℚ), 11, 12, 13]).getD (j - 1) 0 ≤ 0) →
      (∃ j, 1 ≤ j ∧ j ≤ i ∧
        ([(10 : ℚ), 11, 12, 13]).getD j 0 - ([(10 : ℚ), 11, 12, 13]).getD (j - 1) 0 < 0) →
      (computeRSI ([(10 : ℚ), 11, 12, 13].map some) 2).getD i none = some 0)) :=
  ⟨by norm_num, rsi_bounds_and_extremes [(10 : ℚ), 11, 12, 13] 2 (by norm_num)⟩

/-! ## Viewport: manualZoom characterization -/

theorem getCurrentRange_lt (st : DetailState) (r : TimeRange)
    (h : getCurrentRange st = some r) : r.min < r.max := by
  obtain ⟨ci, bh, dtr, srz, oc, ovs, req, xm, xM⟩ := st
  unfold getCurrentRange at h
  cases xm <;> cases xM <;> cases dtr <;> simp_all
  all_goals obtain ⟨h1, rfl⟩ := h
  all_goals simpa using h1

theorem manualResetZoom_of_some (st : DetailState) (d : TimeRange)
    (hd : st.defaultTimeRange = some d) :
    manualResetZoom st = { st with xMin := some d.min, xMax := some d.max } := by
  unfold manualResetZoom
  rw [hd]

theorem manualZoom_reset (st : DetailState) (d r : TimeRange) (factor : ℚ)
    (hd : st.defaultTimeRange = some d) (hdlt : d.min < d.max)
    (hr : getCurrentRange st = some r)
    (hbig : d.max - d.min ≤ max (max ((d.max - d.min) / 200) ONE_DAY_MS) ((r.max - r.min) / factor)) :
    manualZoom factor st = { st with xMin := some d.min, xMax := some d.max } := by
  have hrlt : r.min < r.max := getCurrentRange_lt st r hr
  simp only [manualZoom, hd, hr]
  rw [if_neg (not_le.2 (show (0:ℚ) < d.max - d.min by linarith)),
      if_neg (not_le.2 (show (0:ℚ) < r.max - r.min by linarith)),
      if_pos hbig]
  rw [manualResetZoom_of_some st d hd, hd]

theorem manualZoom_zoomed (st : DetailState) (d r : TimeRange) (factor : ℚ)
    (hd : st.defaultTimeRange = some d) (hdlt : d.min < d.max)
    (hr : getCurrentRange st = some r)
    (hsmall : max (max ((d.max - d.min) / 200) ONE_DAY_MS) ((r.max - r.min) / factor)
      < d.max - d.min) :
    ∃ a b, manualZoom factor st = { st with xMin := some a, xMax := some b } ∧
      b - a = max (max ((d.max - d.min) / 200) ONE_DAY_MS) ((r.max - r.min) / factor) ∧
      d.min ≤ a ∧ a < b ∧ b ≤ d.max := by
  have hrlt : r.min < r.max := getCurrentRange_lt st r hr
  have hday : (0 : ℚ) < ONE_DAY_MS := by norm_num [ONE_DAY_MS]
  have hnspos : 0 < max (max ((d.max - d.min) / 200) ONE_DAY_MS) ((r.max - r.min) / factor) := by
    have h1 : ONE_DAY_MS ≤ max ((d.max - d.min) / 200) ONE_DAY_MS := le_max_right _ _
    have h2 : max ((d.max - d.min) / 200) ONE_DAY_MS
        ≤ max (max ((d.max - d.min) / 200) ONE_DAY_MS) ((r.max - r.min) / factor) :=
      le_max_left _ _
    linarith
  simp only [manualZoom, hd, hr]
  rw [if_neg (not_le.2 (show (0:ℚ) < d.max - d.min by linarith)),
      if_neg (not_le.2 (show (0:ℚ) < r.max - r.min by linarith)),
      if_neg (not_le.2 hsmall)]
  set NS := max (max ((d.max - d.min) / 200) ONE_DAY_MS) ((r.max - r.min) / factor) with hNS
  split_ifs with hc1 hc2 hc3 hc4 hc5 hc6 hc7
  · exact absurd hc2 (by push_neg; linarith)
  · exact absurd hc2 (by push_neg; linarith)
  · exfalso
    have hA : d.min ⊔ (r.min + (r.max - r.min) / 2 - NS / 2 +
          (d.min - (r.min + (r.max - r.min) / 2 - NS / 2)))
        = r.min + (r.max - r.min) / 2 - NS / 2 +
          (d.min - (r.min + (r.max - r.min) / 2 - NS / 2)) :=
      max_eq_right (by linarith)
    have hB : d.max ⊓ (r.min + (r.max - r.min) / 2 + NS / 2 +
          (d.min - (r.min + (r.max - r.min) / 2 - NS / 2)))
        = r.min + (r.max - r.min) / 2 + NS / 2 +
          (d.min - (r.min + (r.max - r.min) / 2 - NS / 2)) :=
      min_eq_right (by linarith)
    rw [hA, hB] at hc4
    linarith
  · have hA : d.min ⊔ (r.min + (r.max - r.min) / 2 - NS / 2 +
          (d.min - (r.min + (r.max - r.min) / 2 - NS / 2)))
        = r.min + (r.max - r.min) / 2 - NS / 2 +
          (d.min - (r.min + (r.max - r.min) / 2 - NS / 2)) :=
      max_eq_right (by linarith)
    have hB : d.max ⊓ (r.min + (r.max - r.min) / 2 + NS / 2 +
          (d.min - (r.min + (r.max - r.min) / 2 - NS / 2)))
        = r.min + (r.max - r.min) / 2 + NS / 2 +
          (d.min - (r.min + (r.max - r.min) / 2 - NS / 2)) :=
      min_eq_right (by linarith)
    refine ⟨_, _, rfl, ?_, ?_, ?_, ?_⟩ <;> simp only [hA, hB] <;> linarith
  · exfalso
    have hA : d.min ⊔ (r.min + (r.max - r.min) / 2 - NS / 2 -
          (r.min + (r.max - r.min) / 2 + NS / 2 - d.max))
        = r.min + (r.max - r.min) / 2 - NS / 2 -
          (r.min + (r.max - r.min) / 2 + NS / 2 - d.max) :=
      max_eq_right (by linarith)
    have hB : d.max ⊓ (r.min + (r.max - r.min) / 2 + NS / 2 -
          (r.min + (r.max - r.min) / 2 + NS / 2 - d.max))
        = r.min + (r.max - r.min) / 2 + NS / 2 -
          (r.min + (r.max - r.min) / 2 + NS / 2 - d.max) :=
      min_eq_right (by linarith)
    rw [hA, hB] at hc6
    linarith
  · have hA : d.min ⊔ (r.min + (r.max - r.min) / 2 - NS / 2 -
          (r.min + (r.max - r.min) / 2 + NS / 2 - d.max))
        = r.min + (r.max - r.min) / 2 - NS / 2 -
          (r.min + (r.max - r.min) / 2 + NS / 2 - d.max) :=
      max_eq_right (by linarith)
    have hB : d.max ⊓ (r.min + (r.max - r.min) / 2 + NS / 2 -
          (r.min + (r.max - r.min) / 2 + NS / 2 - d.max))
        = r.min + (r.max - r.min) / 2 + NS / 2 -
          (r.min + (r.max - r.min) / 2 + NS / 2 - d.max) :=
      min_eq_right (by linarith)
    refine ⟨_, _, rfl, ?_, ?_, ?_, ?_⟩ <;> simp only [hA, hB] <;> linarith
  · exfalso
    have hA : d.min ⊔ (r.min + (r.max - r.min) / 2 - NS / 2)
        = r.min + (r.max - r.min) / 2 - NS / 2 :=
      max_eq_right (by linarith)
    have hB : d.max ⊓ (r.min + (r.max - r.min) / 2 + NS / 2)
        = r.min + (r.max - r.min) / 2 + NS / 2 :=
      min_eq_right (by linarith)
    rw [hA, hB] at hc7
    linarith
  · have hA : d.min ⊔ (r.min + (r.max - r.min) / 2 - NS / 2)
        = r.min + (r.max - r.min) / 2 - NS / 2 :=
      max_eq_right (by linarith)
    have hB : d.max ⊓ (r.min + (r.max - r.min) / 2 + NS / 2)
        = r.min + (r.max - r.min) / 2 + NS / 2 :=
      min_eq_right (by linarith)
    refine ⟨_, _, rfl, ?_, ?_, ?_, ?_⟩ <;> simp only [hA, hB] <;> linarith


theorem getCurrentRange_of_set (st : DetailState) (a b : ℚ) (hab : a < b) :
    getCurrentRange { st with xMin := some a, xMax := some b } = some { min := a, max := b } := by
  unfold getCurrentRange
  simp [hab.not_le]

/-- Claim C8.  With a default range holding at least two distinct
timestamps, manualZoom(factor) sets the span to the current span divided by
the factor, clamped below by max(defaultSpan/200, one day) and above by the
default span; reaching the default span resets to the Default range, and
otherwise the resulting window satisfies
defaultRange.min ≤ min < max ≤ defaultRange.max. -/
theorem manualZoom_clamp_and_invariant (st : DetailState) (d r : TimeRange) (factor : ℚ)
    (hd : st.defaultTimeRange = some d) (hdlt : d.min < d.max) (hf : 0 < factor)
    (hr : getCurrentRange st = some r) :
    (d.max - d.min ≤ max (max ((d.max - d.min) / 200) ONE_DAY_MS) ((r.max - r.min) / factor) →
      manualZoom factor st = { st with xMin := some d.min, xMax := some d.max }) ∧
    (max (max ((d.max - d.min) / 200) ONE_DAY_MS) ((r.max - r.min) / factor) < d.max - d.min →
      ∃ a b, manualZoom factor st = { st with xMin := some a, xMax := some b } ∧
        b - a = max (max ((d.max - d.min) / 200) ONE_DAY_MS) ((r.max - r.min) / factor) ∧
        d.min ≤ a ∧ a < b ∧ b ≤ d.max) :=
  ⟨fun h => manualZoom_reset st d r factor hd hdlt hr h,
   fun h => manualZoom_zoomed st d r factor hd hdlt hr h⟩

/-- Witness for manualZoom_clamp_and_invariant: default range of ten days,
current range equal to it, factor 2. -/
theorem manualZoom_clamp_and_invariant_witness :
    zoomWitnessState.defaultTimeRange = some { min := (0 : ℚ), max := 864000000 } ∧
    (0 : ℚ) < 864000000 ∧ (0 : ℚ) < 2 ∧
    getCurrentRange zoomWitnessState = some { min := (0 : ℚ), max := 864000000 } ∧
    (((864000000 : ℚ) - 0 ≤ max (max (((864000000 : ℚ) - 0) / 200) ONE_DAY_MS)
          (((864000000 : ℚ) - 0) / 2) →
      manualZoom 2 zoomWitnessState
        = { zoomWitnessState with xMin := some 0, xMax := some 864000000 }) ∧
    (max (max (((864000000 : ℚ) - 0) / 200) ONE_DAY_MS) (((864000000 : ℚ) - 0) / 2)
        < (864000000 : ℚ) - 0 →
      ∃ a b, manualZoom 2 zoomWitnessState
          = { zoomWitnessState with xMin := some a, xMax := some b } ∧
        b - a = max (max (((864000000 : ℚ) - 0) / 200) ONE_DAY_MS) (((864000000 : ℚ) - 0) / 2) ∧
        (0 : ℚ) ≤ a ∧ a < b ∧ b ≤ 864000000)) :=
  ⟨rfl, by norm_num, by norm_num, by decide,
    manualZoom_clamp_and_invariant zoomWitnessState
      { min := 0, max := 864000000 } { min := 0, max := 864000000 } 2
      rfl (by norm_num) (by norm_num) (by decide)⟩

/-- Claim C9.  zoom(f) followed by zoom(1/f), starting from a current range
whose span and f-divided span both lie strictly between the minimum-span
floor and the default span (neither zoom hits a clamp), restores exactly
the original span. -/
theorem zoom_roundtrip_span (st : DetailState) (d r : TimeRange) (f : ℚ)
    (hd : st.defaultTimeRange = some d) (hdlt : d.min < d.max) (hf : 0 < f)
    (hr : getCurrentRange st = some r)
    (h1 : max ((d.max - d.min) / 200) ONE_DAY_MS ≤ (r.max - r.min) / f)
    (h2 : (r.max - r.min) / f < d.max - d.min)
    (h3 : max ((d.max - d.min) / 200) ONE_DAY_MS ≤ r.max - r.min)
    (h4 : r.max - r.min < d.max - d.min) :
    ∃ a b, (manualZoom (1 / f) (manualZoom f st)).xMin = some a ∧
      (manualZoom (1 / f) (manualZoom f st)).xMax = some b ∧
      b - a = r.max - r.min := by
  have hns1 : max (max ((d.max - d.min) / 200) ONE_DAY_MS) ((r.max - r.min) / f)
      = (r.max - r.min) / f := max_eq_right h1
  obtain ⟨a1, b1, heq1, hspan1, hlo1, hab1, hhi1⟩ :=
    manualZoom_zoomed st d r f hd hdlt hr (by rw [hns1]; exact h2)
  rw [hns1] at hspan1
  have hd1 : (manualZoom f st).defaultTimeRange = some d := by
    rw [heq1]
    exact hd
  have hr1 : getCurrentRange (manualZoom f st) = some { min := a1, max := b1 } := by
    rw [heq1]
    exact getCurrentRange_of_set st a1 b1 hab1
  have htarget : (b1 - a1) / (1 / f) = r.max - r.min := by
    rw [hspan1]
    field_simp
  have hsmall2 : max (max ((d.max - d.min) / 200) ONE_DAY_MS)
      ((({ min := a1, max := b1 } : TimeRange).max - ({ min := a1, max := b1 } : TimeRange).min)
        / (1 / f)) < d.max - d.min := by
    show max (max ((d.max - d.min) / 200) ONE_DAY_MS) ((b1 - a1) / (1 / f)) < d.max - d.min
    rw [htarget, max_eq_right h3]
    exact h4
  obtain ⟨a2, b2, heq2, hspan2, hlo2, hab2, hhi2⟩ :=
    manualZoom_zoomed (manualZoom f st) d { min := a1, max := b1 } (1 / f) hd1 hdlt hr1 hsmall2
  refine ⟨a2, b2, ?_, ?_, ?_⟩
  · rw [heq2]
  · rw [heq2]
  · rw [hspan2]
    show max (max ((d.max - d.min) / 200) ONE_DAY_MS) ((b1 - a1) / (1 / f)) = r.max - r.min
    rw [htarget, max_eq_right h3]


/-- Witness for zoom_roundtrip_span: a 100-day window inside a 400-day
default range, f = 2. -/
theorem zoom_roundtrip_span_witness :
    roundtripWitnessState.defaultTimeRange = some { min := (0 : ℚ), max := 34560000000 } ∧
    (0 : ℚ) < 34560000000 ∧ (0 : ℚ) < 2 ∧
    getCurrentRange roundtripWitnessState = some { min := (0 : ℚ), max := 8640000000 } ∧
    max (((34560000000 : ℚ) - 0) / 200) ONE_DAY_MS ≤ ((8640000000 : ℚ) - 0) / 2 ∧
    ((8640000000 : ℚ) - 0) / 2 < (34560000000 : ℚ) - 0 ∧
    max (((34560000000 : ℚ) - 0) / 200) ONE_DAY_MS ≤ (8640000000 : ℚ) - 0 ∧
    (8640000000 : ℚ) - 0 < (34560000000 : ℚ) - 0 ∧
    (∃ a b, (manualZoom (1 / 2) (manualZoom 2 roundtripWitnessState)).xMin = some a ∧
      (manualZoom (1 / 2) (manualZoom 2 roundtripWitnessState)).xMax = some b ∧
      b - a = (8640000000 : ℚ) - 0) :=
  ⟨rfl, by norm_num, by norm_num, by decide,
    by rw [max_def]; norm_num [ONE_DAY_MS],
    by norm_num,
    by rw [max_def]; norm_num [ONE_DAY_MS],
    by norm_num,
    zoom_roundtrip_span roundtripWitnessState
      { min := 0, max := 34560000000 } { min := 0, max := 8640000000 } 2
      rfl (by norm_num) (by norm_num) (by decide)
      (by rw [max_def]; norm_num [ONE_DAY_MS])
      (by norm_num)
      (by rw [max_def]; norm_num [ONE_DAY_MS])
      (by norm_num)⟩

/-! ## detail.js state machine: field preservation of updatePriceChart -/

theorem updatePriceChart_baseHistory (st : DetailState) :
    (updatePriceChart st).baseHistory = st.baseHistory := by
  unfold updatePriceChart manualResetZoom
  split
  · dsimp only
    split <;> rfl
  · rfl

theorem updatePriceChart_overlays (st : DetailState) :
    (updatePriceChart st).overlays = st.overlays := by
  unfold updatePriceChart manualResetZoom
  split
  · dsimp only
    split <;> rfl
  · rfl

theorem updatePriceChart_overlayCounter (st : DetailState) :
    (updatePriceChart st).overlayCounter = st.overlayCounter := by
  unfold updatePriceChart manualResetZoom
  split
  · dsimp only
    split <;> rfl
  · rfl

theorem updatePriceChart_requests (st : DetailState) :
    (updatePriceChart st).requests = st.requests := by
  unfold updatePriceChart manualResetZoom
  split
  · dsimp only
    split <;> rfl
  · rfl

/-- Claim C1 (counterexample).  Issue the interval-A fetch, then the
interval-B fetch; B's response is applied first, then A's late response
arrives: the rendered base history is A's points, not B's — the stale
response replaces the newer one instead of being discarded. -/
theorem history_race_counterexample :
    ¬ ((applyHistoryResponse (applyHistoryResponse initialState [histPointB])
        [histPointA]).baseHistory = [histPointB]) := by
  decide

/-- Claim C1 (amended).  loadHistory performs no generation-token
comparison: whichever response handler runs last overwrites baseHistory
(last writer wins), and the state.requests slots that could carry such
tokens are never consulted or modified by any handler. -/
theorem history_last_writer_wins (st : DetailState) (a b : List HistoryItem) :
    (applyHistoryResponse (applyHistoryResponse st b) a).baseHistory = a ∧
    (applyHistoryResponse st a).requests = st.requests := by
  constructor
  · exact updatePriceChart_baseHistory _
  · exact updatePriceChart_requests _

/-- Claim C4 (counterexample).  A history fetch failure on a state holding
a non-empty last good series does not keep it: the catch handler empties
baseHistory, so the empty state is shown although a prior series existed. -/
theorem history_failure_counterexample :
    ¬ (priorHistoryState.baseHistory = []) ∧
    ¬ ((applyHistoryFailure priorHistoryState).baseHistory
        = priorHistoryState.baseHistory) := by
  constructor
  · decide
  · decide

/-- Claim C4 (amended).  On history fetch failure the base series is always
cleared — the last good Series is not kept and the empty state is shown
even when a prior series existed; the overlay definitions and counter (the
other panels' data) are left untouched. -/
theorem history_failure_clears_base (st : DetailState) :
    (applyHistoryFailure st).baseHistory = [] ∧
    (applyHistoryFailure st).overlays = st.overlays ∧
    (applyHistoryFailure st).overlayCounter = st.overlayCounter := by
  refine ⟨?_, ?_, ?_⟩
  · exact updatePriceChart_baseHistory _
  · exact updatePriceChart_overlays _
  · exact updatePriceChart_overlayCounter _

/-! ## Overlay refresh failure isolation and overlay add atomicity -/

/-- Claim C7 (counterexample).  In the partial-failure scenario (SMA(20)
recompute rejected, EMA(50) fulfilled), the failed overlay's stored record
after refreshAllOverlays is exactly its record from before the refresh:
nothing about the failure is recorded anywhere on it.  The source overlay
objects have no lastError field at all, so the claimed error recording
cannot and does not happen. -/
theorem overlay_failure_counterexample :
    (refreshAllOverlays twoOverlayState overlayResults).overlays.head?
      = twoOverlayState.overlays.head? ∧
    twoOverlayState.overlays.head? = some (1, smaOverlayDef) ∧
    smaOverlayDef.dataset.isSome := ⟨rfl, rfl, rfl⟩

/-- Claim C7 (amended).  Overlay recompute failures are isolated: the
successful overlay's dataset is rebuilt, the render list still contains the
base series followed by the failed overlay's last good dataset and the
updated successful dataset in insertion order, and the failed overlay is
left completely unchanged — but no lastError is recorded, because the
source overlay records carry no error field. -/
theorem overlay_failure_isolated (symbol : String) (st : DetailState) (ov1 ov2 : OverlayDef)
    (results : Nat → Except Unit (List IndPoint)) (vals : List IndPoint)
    (hov : st.overlays = [(1, ov1), (2, ov2)])
    (h1 : results 1 = .error ()) (h2 : results 2 = .ok vals) :
    (refreshAllOverlays st results).overlays
      = [(1, ov1), (2, { ov2 with dataset := some (buildOverlayDataset ov2 vals) })] ∧
    (refreshAllOverlays st results).baseHistory = st.baseHistory ∧
    (∀ d1, ov1.dataset = some d1 →
      renderDatasets symbol (refreshAllOverlays st results)
        = [baseDataset symbol (refreshAllOverlays st results), d1,
           buildOverlayDataset ov2 vals]) := by
  have hov' : (refreshAllOverlays st results).overlays
      = [(1, ov1), (2, { ov2 with dataset := some (buildOverlayDataset ov2 vals) })] := by
    unfold refreshAllOverlays
    rw [updatePriceChart_overlays]
    simp only [hov, List.map_cons, List.map_nil, h1, h2]
  refine ⟨hov', ?_, ?_⟩
  · unfold refreshAllOverlays
    rw [updatePriceChart_baseHistory]
  · intro d1 hd1
    unfold renderDatasets
    rw [hov']
    simp [hd1]


/-- Witness for overlay_failure_isolated at the concrete SMA/EMA scenario. -/
theorem overlay_failure_isolated_witness :
    twoOverlayState.overlays = [(1, smaOverlayDef), (2, emaOverlayDef)] ∧
    overlayResults 1 = .error () ∧
    overlayResults 2 = .ok [{ date := some 1000, value := some 9 }] ∧
    ((refreshAllOverlays twoOverlayState overlayResults).overlays
      = [(1, smaOverlayDef), (2, { emaOverlayDef with
          dataset := some (buildOverlayDataset emaOverlayDef
            [{ date := some 1000, value := some 9 }]) })] ∧
    (refreshAllOverlays twoOverlayState overlayResults).baseHistory
      = twoOverlayState.baseHistory ∧
    (∀ d1, smaOverlayDef.dataset = some d1 →
      renderDatasets "AAPL" (refreshAllOverlays twoOverlayState overlayResults)
        = [baseDataset "AAPL" (refreshAllOverlays twoOverlayState overlayResults), d1,
           buildOverlayDataset emaOverlayDef [{ date := some 1000, value := some 9 }]])) :=
  ⟨rfl, rfl, rfl,
    overlay_failure_isolated "AAPL" twoOverlayState smaOverlayDef emaOverlayDef
      overlayResults [{ date := some 1000, value := some 9 }] rfl rfl rfl⟩

/-- Claim C10.  The overlay submit handler awaits the indicator fetch
before allocating an id: a rejected fetch reaches the catch block with the
state bit-for-bit unchanged (counter, overlay set and hence the render
dataset list), while a fulfilled fetch increments the counter and inserts
the overlay with its dataset already attached — a newly added overlay is
never in a dataset-absent state. -/
theorem overlay_add_atomic (st : DetailState) (t : String) (p : Int) (c : String)
    (hp : 0 < p) :
    (addOverlay st t (some p) c (.error ()) = st) ∧
    (∀ vals, (addOverlay st t (some p) c (.ok vals)).overlayCounter
        = st.overlayCounter + 1 ∧
      (addOverlay st t (some p) c (.ok vals)).overlays
        = st.overlays ++ [(st.overlayCounter,
            { id := st.overlayCounter, type := t, window := p, color := c,
              dataset := some (buildOverlayDataset
                { id := st.overlayCounter, type := t, window := p, color := c,
                  dataset := none } vals) })]) := by
  constructor
  · simp only [addOverlay]
    rw [if_neg (not_le.2 hp)]
  · intro vals
    constructor
    · simp only [addOverlay]
      rw [if_neg (not_le.2 hp), updatePriceChart_overlayCounter]
    · simp only [addOverlay]
      rw [if_neg (not_le.2 hp), updatePriceChart_overlays]


/-- Witness for overlay_add_atomic at the default form values. -/
theorem overlay_add_atomic_witness :
    (0 : Int) < 20 ∧
    ((addOverlay initialState "sma" (some 20) "#2563eb" (.error ()) = initialState) ∧
    (∀ vals, (addOverlay initialState "sma" (some 20) "#2563eb" (.ok vals)).overlayCounter
        = initialState.overlayCounter + 1 ∧
      (addOverlay initialState "sma" (some 20) "#2563eb" (.ok vals)).overlays
        = initialState.overlays ++ [(initialState.overlayCounter,
            { id := initialState.overlayCounter, type := "sma", window := 20,
              color := "#2563eb",
              dataset := some (buildOverlayDataset
                { id := initialState.overlayCounter, type := "sma", window := 20,
                  color := "#2563eb", dataset := none } vals) })])) :=
  ⟨by norm_num, overlay_add_atomic initialState "sma" 20 "#2563eb" (by norm_num)⟩

end ABList
